import Mathlib

/-!
Verification development for the OpenAI-compatible chat-completion adapter
(package `llm`): content conversion, SSE stream decoding, tool-call text
extraction, finish-reason mapping and transport status handling.

Go strings are modelled as Lean `String`/`List Char`; the inputs exercised
here are ASCII, where Go's byte offsets and these character offsets agree.
-/

namespace Otter

set_option maxRecDepth 10000

/-- JSON values, the model of Go's `map[string]any` / `any` universe produced
by `encoding/json`. Numbers keep their source lexeme (this file never relies
on float formatting). Objects are association lists in key order. -/
inductive Json where
  | null
  | bool (b : Bool)
  | num (lexeme : String)
  | str (s : String)
  | arr (items : List Json)
  | obj (fields : List (String × Json))

/-- Insert a field into a key-sorted field list (insertion step). -/
def insertField (kv : String × Json) : List (String × Json) → List (String × Json)
  | [] => [kv]
  | hd :: tl => if kv.1 ≤ hd.1 then kv :: hd :: tl else hd :: insertField kv tl

/-- Sort object fields by key, as Go's `json.Marshal` does for maps. -/
def sortFields : List (String × Json) → List (String × Json)
  | [] => []
  | kv :: tl => insertField kv (sortFields tl)

mutual

/-- Recursively sort every object's fields by key (Go map marshal order). -/
def sortObjs : Json → Json
  | .obj fields => .obj (sortFields (sortObjsFields fields))
  | .arr items => .arr (sortObjsList items)
  | j => j

def sortObjsList : List Json → List Json
  | [] => []
  | x :: tl => sortObjs x :: sortObjsList tl

def sortObjsFields : List (String × Json) → List (String × Json)
  | [] => []
  | (k, v) :: tl => (k, sortObjs v) :: sortObjsFields tl

end

/-- Lower-case hex digit. -/
def hexDigit (n : Nat) : Char :=
  if n < 10 then Char.ofNat (48 + n) else Char.ofNat (87 + n)

/-- Escape one character as Go's `json.Marshal` string encoder does
(HTML-escaping enabled, its default). -/
def escapeJsonChar (c : Char) : String :=
  if c = '"' then "\\\""
  else if c = '\\' then "\\\\"
  else if c = '\n' then "\\n"
  else if c = '\r' then "\\r"
  else if c = '\t' then "\\t"
  else if c = '<' then "\\u003c"
  else if c = '>' then "\\u003e"
  else if c = '&' then "\\u0026"
  else if c.toNat < 32 then
    "\\u00" ++ String.mk [hexDigit (c.toNat / 16), hexDigit (c.toNat % 16)]
  else String.mk [c]

/-- Go `json.Marshal` of a string value. -/
def quoteJsonString (s : String) : String :=
  "\"" ++ String.join (s.data.map escapeJsonChar) ++ "\""

mutual

/-- Serialize a JSON value (fields are emitted in list order; `goMarshal`
pre-sorts them to model Go's map marshalling). -/
def serializeJson : Json → String
  | .null => "null"
  | .bool true => "true"
  | .bool false => "false"
  | .num lx => lx
  | .str s => quoteJsonString s
  | .arr items => "[" ++ serializeItems items ++ "]"
  | .obj fields => "\x7b" ++ serializeFields fields ++ "\x7d"

def serializeItems : List Json → String
  | [] => ""
  | [x] => serializeJson x
  | x :: y :: tl => serializeJson x ++ "," ++ serializeItems (y :: tl)

def serializeFields : List (String × Json) → String
  | [] => ""
  | [(k, v)] => quoteJsonString k ++ ":" ++ serializeJson v
  | (k, v) :: y :: tl =>
      quoteJsonString k ++ ":" ++ serializeJson v ++ "," ++ serializeFields (y :: tl)

end

/-- Model of Go `json.Marshal` on an `any` value (maps marshal with sorted
keys). -/
def goMarshal (j : Json) : String := serializeJson (sortObjs j)

/-- Model of Go `json.Marshal` on a non-nil `map[string]any`. -/
def goMarshalFields (fields : List (String × Json)) : String :=
  goMarshal (.obj fields)

/-- ASCII whitespace, the JSON insignificant-whitespace set that Go's
scanner skips. -/
def isJsonWs (c : Char) : Bool :=
  c = ' ' ∨ c = '\t' ∨ c = '\n' ∨ c = '\r'

/-- Skip insignificant whitespace. -/
def skipWs : List Char → List Char
  | [] => []
  | c :: tl => if isJsonWs c then skipWs tl else c :: tl

/-- Result of decoding one JSON value from a character stream: the value and
the unread remainder, or (on a syntax error) the remainder at the point the
scanner stopped — the model of `Decoder.InputOffset` after an error. -/
inductive PResult (α : Type) where
  | ok (v : α) (rest : List Char)
  | err (rest : List Char)
deriving DecidableEq

/-- Hex digit value, for `\u` escapes. -/
def hexVal (c : Char) : Option Nat :=
  if '0' ≤ c ∧ c ≤ '9' then some (c.toNat - 48)
  else if 'a' ≤ c ∧ c ≤ 'f' then some (c.toNat - 87)
  else if 'A' ≤ c ∧ c ≤ 'F' then some (c.toNat - 55)
  else none

/-- Parse the remainder of a JSON string literal (the opening quote already
consumed), accumulating decoded characters. Surrogate pairs are not
recombined (the inputs considered never use them). -/
def parseStringRest (acc : List Char) : List Char → PResult String
  | [] => .err []
  | '"' :: tl => .ok (String.mk acc) tl
  | '\\' :: rest =>
    match rest with
    | [] => .err []
    | '"' :: tl => parseStringRest (acc ++ ['"']) tl
    | '\\' :: tl => parseStringRest (acc ++ ['\\']) tl
    | '/' :: tl => parseStringRest (acc ++ ['/']) tl
    | 'b' :: tl => parseStringRest (acc ++ ['\x08']) tl
    | 'f' :: tl => parseStringRest (acc ++ ['\x0c']) tl
    | 'n' :: tl => parseStringRest (acc ++ ['\n']) tl
    | 'r' :: tl => parseStringRest (acc ++ ['\r']) tl
    | 't' :: tl => parseStringRest (acc ++ ['\t']) tl
    | 'u' :: h1 :: h2 :: h3 :: h4 :: tl =>
      match hexVal h1, hexVal h2, hexVal h3, hexVal h4 with
      | some a, some b, some c, some d =>
          parseStringRest (acc ++ [Char.ofNat (a * 4096 + b * 256 + c * 16 + d)]) tl
      | _, _, _, _ => .err tl
    | other => .err other
  | c :: tl => parseStringRest (acc ++ [c]) tl

/-- Decimal digit test. -/
def isDigitCh (c : Char) : Bool := '0' ≤ c ∧ c ≤ '9'

/-- Longest digit run and the remainder. -/
def spanDigits : List Char → List Char × List Char
  | [] => ([], [])
  | c :: tl =>
    if isDigitCh c then
      let (ds, rest) := spanDigits tl
      (c :: ds, rest)
    else ([], c :: tl)

/-- Parse the integer part of a JSON number after the optional sign
(`0` or a nonzero digit followed by digits). -/
def parseIntPart : List Char → PResult (List Char)
  | [] => .err []
  | '0' :: tl => .ok ['0'] tl
  | c :: tl =>
    if isDigitCh c then
      let (ds, rest) := spanDigits tl
      .ok (c :: ds) rest
    else .err (c :: tl)

/-- Parse the optional fraction part (empty when absent). -/
def parseFracPart : List Char → PResult (List Char)
  | '.' :: tl =>
    match spanDigits tl with
    | ([], rest) => .err rest
    | (ds, rest) => .ok ('.' :: ds) rest
  | other => .ok [] other

/-- Parse the optional exponent part (empty when absent). -/
def parseExpPart : List Char → PResult (List Char)
  | 'e' :: tl => parseExpDigits ['e'] tl
  | 'E' :: tl => parseExpDigits ['E'] tl
  | other => .ok [] other
where
  parseExpDigits (pre : List Char) : List Char → PResult (List Char)
    | '+' :: tl => parseExpTail (pre ++ ['+']) tl
    | '-' :: tl => parseExpTail (pre ++ ['-']) tl
    | other => parseExpTail pre other
  parseExpTail (pre : List Char) (cs : List Char) : PResult (List Char) :=
    match spanDigits cs with
    | ([], rest) => .err rest
    | (ds, rest) => .ok (pre ++ ds) rest

/-- Parse a JSON number lexeme per the JSON grammar. -/
def parseNumber (cs : List Char) : PResult String :=
  let (sign, rest) :=
    match cs with
    | '-' :: tl => (['-'], tl)
    | other => (([] : List Char), other)
  match parseIntPart rest with
  | .err r => .err r
  | .ok ip r1 =>
    match parseFracPart r1 with
    | .err r => .err r
    | .ok fp r2 =>
      match parseExpPart r2 with
      | .err r => .err r
      | .ok ep r3 => .ok (String.mk (sign ++ ip ++ fp ++ ep)) r3

mutual

/-- Parse one JSON value after skipping leading whitespace (the model of Go's
`json.Decoder` reading exactly one value; trailing input is left unread).
Fuel bounds the recursion; `goDecodeValue` supplies enough fuel that it is
never exhausted. -/
def parseValue : Nat → List Char → PResult Json
  | 0, cs => .err cs
  | fuel + 1, cs =>
    match skipWs cs with
    | [] => .err []
    | 'n' :: 'u' :: 'l' :: 'l' :: tl => .ok .null tl
    | 't' :: 'r' :: 'u' :: 'e' :: tl => .ok (.bool true) tl
    | 'f' :: 'a' :: 'l' :: 's' :: 'e' :: tl => .ok (.bool false) tl
    | '"' :: tl =>
      match parseStringRest [] tl with
      | .ok s rest => .ok (.str s) rest
      | .err rest => .err rest
    | '\x7b' :: tl =>
      match skipWs tl with
      | '\x7d' :: rest => .ok (.obj []) rest
      | other => parseMembers fuel [] other
    | '[' :: tl =>
      match skipWs tl with
      | ']' :: rest => .ok (.arr []) rest
      | other => parseElements fuel [] other
    | c :: tl =>
      if c = '-' ∨ isDigitCh c then
        match parseNumber (c :: tl) with
        | .ok lx rest => .ok (.num lx) rest
        | .err rest => .err rest
      else .err (c :: tl)

/-- Parse object members starting at a key (whitespace already skipped). -/
def parseMembers : Nat → List (String × Json) → List Char → PResult Json
  | 0, _, cs => .err cs
  | fuel + 1, acc, cs =>
    match cs with
    | '"' :: tl =>
      match parseStringRest [] tl with
      | .err rest => .err rest
      | .ok key r1 =>
        match skipWs r1 with
        | ':' :: r2 =>
          match parseValue fuel r2 with
          | .err rest => .err rest
          | .ok v r3 =>
            match skipWs r3 with
            | ',' :: r4 => parseMembers fuel (acc ++ [(key, v)]) (skipWs r4)
            | '\x7d' :: r4 => .ok (.obj (acc ++ [(key, v)])) r4
            | other => .err other
        | other => .err other
    | other => .err other

/-- Parse array elements starting at a value (whitespace already skipped). -/
def parseElements : Nat → List Json → List Char → PResult Json
  | 0, _, cs => .err cs
  | fuel + 1, acc, cs =>
    match parseValue fuel cs with
    | .err rest => .err rest
    | .ok v r1 =>
      match skipWs r1 with
      | ',' :: r2 => parseElements fuel (acc ++ [v]) r2
      | ']' :: r2 => .ok (.arr (acc ++ [v])) r2
      | other => .err other

end

/-- Model of one `json.Decoder.Decode` call: decode exactly one JSON value
from the front of the stream, leaving the rest unread. -/
def goDecodeValue (cs : List Char) : PResult Json :=
  parseValue (cs.length + 1) cs

/-- Model of Go `json.Unmarshal` into a `map[string]any`: the whole input must
be one JSON object (trailing whitespace allowed), otherwise an error. -/
def goUnmarshalMap (s : String) : Option (List (String × Json)) :=
  match goDecodeValue s.data with
  | .ok (.obj fields) rest => if skipWs rest = [] then some fields else none
  | .ok _ _ => none
  | .err _ => none

/-- Last-wins association lookup, the model of reading a Go map built by
`encoding/json` (later duplicate keys overwrite earlier ones). -/
def lookupLast (key : String) (fields : List (String × Json)) : Option Json :=
  ((fields.filter (fun kv : String × Json => kv.1 = key)).getLast?).map (fun kv => kv.2)

/-- Go `strings.HasPrefix`. -/
def strStartsWith (p s : String) : Bool := p.data.isPrefixOf s.data

/-- Go `strings.TrimPrefix`: drop the prefix when present, else unchanged. -/
def strTrimLeading (p s : String) : String :=
  if strStartsWith p s then String.mk (s.data.drop p.data.length) else s

/-- Go `strings.TrimSpace` (ASCII whitespace; the inputs considered carry no
other space characters). -/
def trimSpace (s : String) : String :=
  String.mk (((s.data.dropWhile isJsonWs).reverse.dropWhile isJsonWs).reverse)

/-- Wire shape `openAIFunctionCall`: `name` and the raw `arguments` JSON
string. -/
structure OpenAIFunctionCall where
  name : String
  arguments : String
deriving DecidableEq

/-- Wire shape `openAIToolCall`. -/
structure OpenAIToolCall where
  id : String
  type : String
  function : OpenAIFunctionCall
deriving DecidableEq

/-- The zero value of `openAIToolCall`, used when the stream accumulator is
padded. -/
def emptyToolCall : OpenAIToolCall := ⟨"", "", ⟨"", ""⟩⟩

/-- `genai.FinishReason` values this adapter produces. -/
inductive FinishReason where
  | stop
  | maxTokens
  | safety
  | other
deriving DecidableEq

/-- `mapFinishReason` (source switch): `stop`→Stop, `length`→MaxTokens,
`tool_calls`→Stop, `content_filter`→Safety, default→Other. -/
def mapFinishReason (reason : String) : FinishReason :=
  if reason = "stop" then .stop
  else if reason = "length" then .maxTokens
  else if reason = "tool_calls" then .stop
  else if reason = "content_filter" then .safety
  else .other

/-- Find the next `\x7b` character, Go `strings.Index(s, "\x7b")`. -/
def indexOfBrace (cs : List Char) : Option Nat :=
  cs.findIdx? (fun c => c = '\x7b')

/-- One step result of the text-extraction scan loop. -/
structure ExtractState where
  calls : List OpenAIToolCall
  remText : List Char
deriving DecidableEq

/-- The scan loop of `parseToolCallsFromText`, recursing on the text after the
cursor. `fresh` models `uuid.New().String()` (the `n`-th call of the
generator), `k` the number of generator calls made so far. `fuel` bounds the
recursion; every iteration advances the cursor by at least one character, so
`text.length + 1` fuel is never exhausted. -/
def parseToolCallsLoop (fresh : Nat → String) : Nat → Nat → List Char →
    List OpenAIToolCall → List Char → List OpenAIToolCall × List Char
  | _, 0, cs, accCalls, accText => (accCalls, accText ++ cs)
  | k, fuel + 1, cs, accCalls, accText =>
    match indexOfBrace cs with
    | none => (accCalls, accText ++ cs)
    | some braceIndex =>
      let pre := cs.take braceIndex
      let fromBrace := cs.drop braceIndex
      -- decoder := json.NewDecoder(strings.NewReader(text[braceIndex:]))
      match goDecodeValue fromBrace with
      | .ok _ _ =>
        -- err == nil: the source treats the brace as literal text and
        -- resumes one character later
        parseToolCallsLoop fresh k fuel (fromBrace.drop 1) accCalls
          (accText ++ pre ++ ['\x7b'])
      | .err rest =>
        -- err != nil: endPos := braceIndex + decoder.InputOffset(); the
        -- candidate map was never populated by the failed Decode
        let consumed := fromBrace.length - rest.length
        let candidate : List (String × Json) := []
        let nameV := lookupLast "name" candidate
        let argsV := lookupLast "arguments" candidate
        match nameV, argsV with
        | some (.str name), some args =>
          let argsStr :=
            match args with
            | .str a => a
            | other => goMarshal other
          let fabricated := "call_" ++ ((fresh k).take 8)
          let callID :=
            match lookupLast "id" candidate with
            | some (.str id) => if id ≠ "" then id else fabricated
            | _ => fabricated
          parseToolCallsLoop fresh (k + 1) fuel (fromBrace.drop consumed)
            (accCalls ++ [⟨callID, "function", ⟨name, argsStr⟩⟩]) (accText ++ pre)
        | _, _ =>
          parseToolCallsLoop fresh k fuel (fromBrace.drop consumed) accCalls
            (accText ++ pre ++ fromBrace.take consumed)

/-- `parseToolCallsFromText`: scan assistant text for embedded JSON objects
and recover tool calls, returning the recovered calls and the remaining
text (whitespace-trimmed). -/
def parseToolCallsFromText (fresh : Nat → String) (text : String) :
    List OpenAIToolCall × String :=
  if text = "" then ([], "")
  else
    let (calls, rem) := parseToolCallsLoop fresh 0 (text.data.length + 1) text.data [] []
    (calls, trimSpace (String.mk rem))

/-- `genai.Blob` (inline binary data); bytes as naturals below 256. -/
structure Blob where
  mimeType : String
  data : List Nat
deriving DecidableEq

/-- `genai.FileData`. -/
structure GenFileData where
  fileURI : String
deriving DecidableEq

/-- `genai.FunctionCall`. `args = none` models a nil Go map (either never
populated, or left nil by a failed `json.Unmarshal`). -/
structure GenFunctionCall where
  id : String
  name : String
  args : Option (List (String × Json))

/-- `genai.FunctionResponse`. -/
structure GenFunctionResponse where
  id : String
  name : String
  response : List (String × Json)

/-- `genai.Part`, restricted to the fields this adapter reads or writes. -/
structure GenPart where
  text : String := ""
  thought : Bool := false
  inlineData : Option Blob := none
  fileData : Option GenFileData := none
  functionCall : Option GenFunctionCall := none
  functionResponse : Option GenFunctionResponse := none

/-- `genai.Content`. -/
structure GenContent where
  role : String
  parts : List GenPart

/-- `openAIUsage`; `cachedTokens = none` models an absent
`prompt_tokens_details`. -/
structure OpenAIUsage where
  promptTokens : Int
  completionTokens : Int
  totalTokens : Int
  cachedTokens : Option Int
deriving DecidableEq

/-- The delta message of a streaming chunk (`openAIMessage` as used by
`generateStream`). `content = none` models a nil or non-string `Content`
field, which the source skips identically. -/
structure OpenAIDelta where
  content : Option String
  toolCalls : List OpenAIToolCall
deriving DecidableEq

/-- A streaming `openAIChoice`. -/
structure OpenAIStreamChoice where
  delta : Option OpenAIDelta
  finishReason : String
deriving DecidableEq

/-- A streaming `openAIResponse` chunk (fields `generateStream` reads). -/
structure OpenAIChunk where
  choices : List OpenAIStreamChoice
  usage : Option OpenAIUsage
deriving DecidableEq

/-- `genai.GenerateContentResponseUsageMetadata` fields the adapter sets. -/
structure UsageMetadata where
  promptTokenCount : Int
  candidatesTokenCount : Int
  totalTokenCount : Int
  cachedContentTokenCount : Int
deriving DecidableEq

/-- `model.LLMResponse` fields the adapter sets. `finishReason = none` models
the unset zero value. -/
structure LLMResponse where
  role : String
  parts : List GenPart
  isPartial : Bool
  finishReason : Option FinishReason
  usage : Option UsageMetadata

/-- Go's `int32(n)` conversion (wrap into the signed 32-bit range). -/
def toInt32 (n : Int) : Int := (n + 2 ^ 31) % 2 ^ 32 - 2 ^ 31

/-- `buildUsageMetadata`. -/
def buildUsageMetadata : Option OpenAIUsage → Option UsageMetadata
  | none => none
  | some u =>
    some { promptTokenCount := toInt32 u.promptTokens,
           candidatesTokenCount := toInt32 u.completionTokens,
           totalTokenCount := toInt32 u.totalTokens,
           cachedContentTokenCount :=
             match u.cachedTokens with
             | some c => toInt32 c
             | none => 0 }

/-- `buildFinalResponse`: assemble the final streaming response from the
accumulated text, tool calls, usage and finish reason. The tool-call loop
mirrors the source exactly: when `json.Unmarshal` of the arguments string
SUCCEEDS (`err == nil`) the source logs an error and `continue`s, dropping
the call; when it fails, the call is appended with the never-populated (nil)
args map. -/
def buildFinalResponse (text : String) (toolCalls : List OpenAIToolCall)
    (usage : Option OpenAIUsage) (finishReason : String) : LLMResponse :=
  let textParts : List GenPart := if text ≠ "" then [{ text := text }] else []
  let callParts : List GenPart := toolCalls.filterMap (fun tc =>
    match goUnmarshalMap tc.function.arguments with
    | some _ => none
    | none => some { functionCall := some ⟨tc.id, tc.function.name, none⟩ })
  { role := "model", parts := textParts ++ callParts, isPartial := false,
    finishReason := some (mapFinishReason finishReason),
    usage := buildUsageMetadata usage }

/-- Merge one delta tool-call entry into the accumulator at position `idx`
(the loop body at the heart of `generateStream`): pad with empty entries to
cover `idx`, overwrite non-empty `id`/`type`/`function.name`, append
`function.arguments`. -/
def mergeOneToolCall (acc : List OpenAIToolCall) (idx : Nat)
    (tc : OpenAIToolCall) : List OpenAIToolCall :=
  let padded := acc ++ List.replicate (idx + 1 - acc.length) emptyToolCall
  let stored := padded.getD idx emptyToolCall
  padded.set idx
    { id := if tc.id ≠ "" then tc.id else stored.id,
      type := if tc.type ≠ "" then tc.type else stored.type,
      function :=
        { name := if tc.function.name ≠ "" then tc.function.name
                  else stored.function.name,
          arguments := stored.function.arguments ++ tc.function.arguments } }

/-- The source's `for idx, tc := range delta.ToolCalls` loop: `idx` is the
POSITION of the entry within this delta's list. -/
def mergeDeltaToolCalls (acc : List OpenAIToolCall)
    (deltas : List OpenAIToolCall) : List OpenAIToolCall :=
  (deltas.enum).foldl (fun a p => mergeOneToolCall a p.1 p.2) acc

/-- A `delta.tool_calls` entry as it appears on the wire: it carries an
`index` member in addition to the call fields. -/
structure WireDeltaToolCall where
  index : Nat
  id : String
  type : String
  functionName : String
  functionArguments : String
deriving DecidableEq

/-- Go's `json.Unmarshal` of a wire delta entry into `openAIToolCall`: the
struct declares no `Index` field, so the wire `index` member is dropped. -/
def decodeWireDeltaToolCall (w : WireDeltaToolCall) : OpenAIToolCall :=
  ⟨w.id, w.type, ⟨w.functionName, w.functionArguments⟩⟩

/-- Modelled from the spec (§4.6): merge each wire entry at the integer index
CARRIED BY the entry. Stated only for comparison with the source's
`mergeDeltaToolCalls`. -/
def specMergeDeltaToolCalls (acc : List OpenAIToolCall)
    (deltas : List WireDeltaToolCall) : List OpenAIToolCall :=
  deltas.foldl (fun a w => mergeOneToolCall a w.index (decodeWireDeltaToolCall w)) acc

/-- The mutable state of the streaming loop: text builder, tool-call
accumulator, stored usage. -/
structure StreamState where
  textbuffer : String
  toolCalls : List OpenAIToolCall
  usage : Option OpenAIUsage

/-- Fresh state at stream start. -/
def initialStreamState : StreamState := ⟨"", [], none⟩

/-- Items yielded by the stream: a response or a terminal error. -/
inductive StreamOut where
  | resp (r : LLMResponse)
  | fail (msg : String)

/-- The `delta.Content` paragraph of the loop body: a non-empty string
content appends to the text buffer and yields one `partial` response
carrying only that increment. -/
def contentStep (st : StreamState) (content : Option String) :
    List StreamOut × StreamState :=
  match content with
  | some text =>
    if text ≠ "" then
      ([StreamOut.resp { role := "model", parts := [{ text := text }],
                         isPartial := true, finishReason := none,
                         usage := none }],
       { st with textbuffer := st.textbuffer ++ text })
    else ([], st)
  | none => ([], st)

/-- The `delta.ToolCalls` paragraph: merge the delta entries positionally. -/
def mergeToolCallsStep (st : StreamState) (dtcs : List OpenAIToolCall) :
    StreamState :=
  if dtcs ≠ [] then { st with toolCalls := mergeDeltaToolCalls st.toolCalls dtcs }
  else st

/-- The `chunk.Usage` paragraph: a present usage overwrites the stored one
(the source repeats this store twice; the second store is identical). -/
def storeUsageStep (st : StreamState) (u : Option OpenAIUsage) : StreamState :=
  match u with
  | some v => { st with usage := some v }
  | none => st

/-- Handle one successfully unmarshalled chunk, mirroring the loop body of
`generateStream`: empty `choices` or nil `delta` skip the chunk entirely
(before usage is stored); then the content, tool-call and usage paragraphs
run, and a non-empty finish reason builds the final response and finishes
the machine (third component `true`). -/
def processChunk (st : StreamState) (chunk : OpenAIChunk) :
    List StreamOut × StreamState × Bool :=
  match chunk.choices with
  | [] => ([], st, false)
  | choice :: _ =>
    match choice.delta with
    | none => ([], st, false)
    | some delta =>
      let step1 := contentStep st delta.content
      let st2 := mergeToolCallsStep step1.2 delta.toolCalls
      let st3 := storeUsageStep st2 chunk.usage
      if choice.finishReason ≠ "" then
        (step1.1 ++ [StreamOut.resp (buildFinalResponse st3.textbuffer st3.toolCalls
            st3.usage choice.finishReason)], st3, true)
      else (step1.1, st3, false)

/-- The code that runs when the scan loop exits without a finish reason:
a scanner error is fatal; otherwise non-empty accumulated state flushes one
synthetic final response with reason `"stop"`. -/
def streamEpilogue (scanErr : Option String) (st : StreamState) : List StreamOut :=
  match scanErr with
  | some e => [StreamOut.fail ("stream error: " ++ e)]
  | none =>
    if st.textbuffer ≠ "" ∨ st.toolCalls ≠ [] then
      [StreamOut.resp (buildFinalResponse st.textbuffer st.toolCalls st.usage "stop")]
    else []

/-- One SSE line: its raw text and the result of `json.Unmarshal` on its
payload (`none` = unmarshal error), the latter consulted only when the line
has the `data: ` prefix and is not `[DONE]`. -/
inductive StreamLine where
  | line (raw : String) (decoded : Option OpenAIChunk)

/-- The scan loop of `generateStream` over the lines the scanner produces.
`scanErr` models `scanner.Err()` when the line source is exhausted (a break
on `[DONE]` or a finish reason never consults it, as in the source). The
consumer is modelled as always requesting the next value. -/
def runStreamLoop : List StreamLine → Option String → StreamState → List StreamOut
  | [], scanErr, st => streamEpilogue scanErr st
  | .line raw decoded :: rest, scanErr, st =>
    if ¬ strStartsWith "data: " raw then runStreamLoop rest scanErr st
    else
      let data := strTrimLeading "data: " raw
      if data = "[DONE]" then streamEpilogue none st
      else
        match decoded with
        | none => runStreamLoop rest scanErr st
        | some chunk =>
          let step := processChunk st chunk
          if step.2.2 then step.1
          else step.1 ++ runStreamLoop rest scanErr step.2.1

/-- Run the stream decoder from the fresh state. -/
def runStream (events : List StreamLine) (scanErr : Option String) : List StreamOut :=
  runStreamLoop events scanErr initialStreamState

/-- The accumulator state reached after a list of lines (stopping at `[DONE]`
or at a finish reason, like the loop itself). -/
def streamStateAfter : List StreamLine → StreamState → StreamState
  | [], st => st
  | .line raw decoded :: rest, st =>
    if ¬ strStartsWith "data: " raw then streamStateAfter rest st
    else
      let data := strTrimLeading "data: " raw
      if data = "[DONE]" then st
      else
        match decoded with
        | none => streamStateAfter rest st
        | some chunk =>
          let step := processChunk st chunk
          if step.2.2 then step.2.1
          else streamStateAfter rest step.2.1

/-- Concatenation of a list of strings (in order). -/
def concatAll : List String → String
  | [] => ""
  | s :: tl => s ++ concatAll tl

/-- The text carried by a response: concatenation of its parts' text
fields. -/
def textOf (r : LLMResponse) : String := concatAll (r.parts.map (fun p => p.text))

/-- The non-partial responses among the yielded items. -/
def finalsOf (outs : List StreamOut) : List LLMResponse :=
  outs.filterMap (fun o =>
    match o with
    | .resp r => if r.isPartial then none else some r
    | .fail _ => none)

/-- The texts of the partial responses among the yielded items, in order. -/
def partialTextsOf (outs : List StreamOut) : List String :=
  outs.filterMap (fun o =>
    match o with
    | .resp r => if r.isPartial then some (textOf r) else none
    | .fail _ => none)

/-- Does a chunk trigger final assembly (first choice has a non-nil delta
and a non-empty finish reason)? -/
def chunkFinishes (c : OpenAIChunk) : Bool :=
  match c.choices with
  | [] => false
  | choice :: _ =>
    match choice.delta with
    | none => false
    | some _ => choice.finishReason ≠ ""

/-- Does a line trigger final assembly (a decodable chunk that finishes)? -/
def lineFinishes : StreamLine → Bool
  | .line raw decoded =>
    strStartsWith "data: " raw && strTrimLeading "data: " raw ≠ "[DONE]" &&
      (match decoded with
       | some c => chunkFinishes c
       | none => false)

/-- An upstream HTTP response: status code and (fully readable) body. -/
structure HTTPResponse where
  statusCode : Nat
  body : String
deriving DecidableEq

/-- Outcome of the transport's status check in `sendRequest`: either the
still-open response handed to the caller, or the upstream error carrying
status and body (after the body was read fully and closed). No retry is
performed in either case. -/
inductive SendResult where
  | ok (resp : HTTPResponse)
  | apiError (status : Nat) (body : String)
deriving DecidableEq

/-- The status handling of `sendRequest`: any status other than
`http.StatusOK` (200) is surfaced as an error carrying status and body. -/
def sendRequestCheck (resp : HTTPResponse) : SendResult :=
  if resp.statusCode ≠ 200 then .apiError resp.statusCode resp.body
  else .ok resp

/-- Modelled from the spec (§4.4): a NON-2XX response is surfaced as the
upstream error; every 2xx response is returned to the caller. Stated only
for comparison with `sendRequestCheck`. -/
def specTransportCheck (resp : HTTPResponse) : SendResult :=
  if resp.statusCode < 200 ∨ 300 ≤ resp.statusCode then
    .apiError resp.statusCode resp.body
  else .ok resp

/-- Message content as the wire `any` field: omitted, a plain string, or the
mixed array of typed sub-parts (each a JSON object). -/
inductive MsgContent where
  | omitted
  | str (s : String)
  | arr (items : List Json)

/-- Wire `openAIMessage` (fields `convertContent` sets). -/
structure OpenAIMessage where
  role : String
  content : MsgContent
  toolCalls : List OpenAIToolCall
  toolCallID : String

/-- Standard base64 alphabet. -/
def base64Char (n : Nat) : Char :=
  if n < 26 then Char.ofNat (65 + n)
  else if n < 52 then Char.ofNat (97 + (n - 26))
  else if n < 62 then Char.ofNat (48 + (n - 52))
  else if n = 62 then '+'
  else '/'

/-- Go `base64.StdEncoding.EncodeToString` over bytes (naturals < 256). -/
def base64Encode : List Nat → String
  | [] => ""
  | [a] => String.mk [base64Char (a / 4), base64Char (a % 4 * 16), '=', '=']
  | [a, b] => String.mk [base64Char (a / 4), base64Char (a % 4 * 16 + b / 16),
                         base64Char (b % 16 * 4), '=']
  | a :: b :: c :: tl =>
      String.mk [base64Char (a / 4), base64Char (a % 4 * 16 + b / 16),
                 base64Char (b % 16 * 4 + c / 64), base64Char (c % 64)]
        ++ base64Encode tl

/-- Go `string(bytes)` on the ASCII range (the only use here is folding
`text/*` inline data into the text buffer). -/
def bytesToString (bs : List Nat) : String := String.mk (bs.map Char.ofNat)

/-- The first loop of `convertContent`: one tool-role message per
`functionResponse` part (content = marshalled response map, tool-call id
taken from the part or fabricated). Returns the messages with the advanced
fresh-id counter. -/
def frToolMessages (fresh : Nat → String) : Nat → List GenPart →
    List OpenAIMessage × Nat
  | k, [] => ([], k)
  | k, part :: rest =>
    match part.functionResponse with
    | some fr =>
      let responseJSON := goMarshalFields fr.response
      let (toolCallID, k1) :=
        if fr.id = "" then ("call_" ++ ((fresh k).take 8), k + 1) else (fr.id, k)
      let next := frToolMessages fresh k1 rest
      ({ role := "tool", content := .str responseJSON, toolCalls := [],
         toolCallID := toolCallID } :: next.1, next.2)
    | none => frToolMessages fresh k rest

/-- Accumulators of `convertContent`'s second loop, plus the fresh-id
counter. -/
structure ConvAccum where
  textParts : List String
  contentArray : List Json
  toolCalls : List OpenAIToolCall
  k : Nat

/-- Go `json.Marshal` of the `map[string]any` arguments field: a nil map
marshals as `null`, otherwise a (key-sorted) object. -/
def goMarshalArgs : Option (List (String × Json)) → String
  | none => "null"
  | some fields => goMarshalFields fields

/-- The `part.FunctionCall != nil` arm of the second loop. -/
def convertPartFnCall (fresh : Nat → String) (acc : ConvAccum) (part : GenPart) :
    ConvAccum :=
  match part.functionCall with
  | some fc =>
    let argsJSON := goMarshalArgs fc.args
    let (callID, k1) :=
      if fc.id = "" then ("call_" ++ ((fresh acc.k).take 8), acc.k + 1)
      else (fc.id, acc.k)
    { acc with toolCalls := acc.toolCalls ++ [⟨callID, "function", ⟨fc.name, argsJSON⟩⟩],
               k := k1 }
  | none => acc

/-- The `part.FileData` arm (falling through to the function-call arm, as the
source's else-if chain does). -/
def convertPartFileOrCall (fresh : Nat → String) (acc : ConvAccum)
    (part : GenPart) : ConvAccum :=
  match part.fileData with
  | some fd =>
    if fd.fileURI ≠ "" then
      { acc with contentArray := acc.contentArray ++
          [.obj [("type", .str "file"), ("file", .obj [("file_id", .str fd.fileURI)])]] }
    else convertPartFnCall fresh acc part
  | none => convertPartFnCall fresh acc part

/-- The `part.InlineData` classification by MIME type (note the source's
`"flile_data"` key typo is preserved). -/
def convertPartInline (acc : ConvAccum) (blob : Blob) : ConvAccum :=
  let dataURI := "data:" ++ blob.mimeType ++ ";base64," ++ base64Encode blob.data
  if strStartsWith "image/" blob.mimeType then
    { acc with contentArray := acc.contentArray ++
        [.obj [("type", .str "image_url"), ("image_url", .obj [("url", .str dataURI)])]] }
  else if strStartsWith "audio/" blob.mimeType then
    { acc with contentArray := acc.contentArray ++
        [.obj [("type", .str "audio_url"), ("audio_url", .obj [("url", .str dataURI)])]] }
  else if strStartsWith "video/" blob.mimeType then
    { acc with contentArray := acc.contentArray ++
        [.obj [("type", .str "video_url"), ("video_url", .obj [("url", .str dataURI)])]] }
  else if blob.mimeType = "application/pdf" ∨ blob.mimeType = "application/json" then
    { acc with contentArray := acc.contentArray ++
        [.obj [("type", .str "file"), ("file", .obj [("flile_data", .str dataURI)])]] }
  else if strStartsWith "text/" blob.mimeType then
    { acc with textParts := acc.textParts ++ [bytesToString blob.data] }
  else acc

/-- One iteration of `convertContent`'s second loop (the if/else-if chain
over one part). -/
def convertPartStep (fresh : Nat → String) (acc : ConvAccum) (part : GenPart) :
    ConvAccum :=
  if part.text ≠ "" then { acc with textParts := acc.textParts ++ [part.text] }
  else
    match part.inlineData with
    | some blob =>
      if blob.data ≠ [] then convertPartInline acc blob
      else convertPartFileOrCall fresh acc part
    | none => convertPartFileOrCall fresh acc part

/-- `convertContent`: translate one turn into wire messages. A turn with any
`functionResponse` part returns the tool-role messages exclusively;
otherwise the accumulated text / multimodal sub-parts / tool calls assemble
into a single message by the source's priority. `fresh`/`k` thread the
fabricated-id generator. -/
def convertContent (fresh : Nat → String) (k : Nat) (content : GenContent) :
    List OpenAIMessage × Nat :=
  if content.parts.isEmpty then ([], k)
  else
    let role := if content.role = "model" then "assistant" else content.role
    let toolMessages := frToolMessages fresh k content.parts
    if !toolMessages.1.isEmpty then toolMessages
    else
      let acc := content.parts.foldl (convertPartStep fresh) ⟨[], [], [], k⟩
      let msg : OpenAIMessage :=
        if acc.toolCalls ≠ [] then
          { role := role,
            content := if acc.textParts ≠ [] then
                .str (String.intercalate "\n" acc.textParts)
              else .omitted,
            toolCalls := acc.toolCalls, toolCallID := "" }
        else if !acc.contentArray.isEmpty then
          { role := role,
            content := .arr ((acc.textParts.map (fun t =>
                Json.obj [("type", .str "text"), ("text", .str t)])) ++ acc.contentArray),
            toolCalls := [], toolCallID := "" }
        else if acc.textParts ≠ [] then
          { role := role, content := .str (String.intercalate "\n" acc.textParts),
            toolCalls := [], toolCallID := "" }
        else { role := role, content := .omitted, toolCalls := [], toolCallID := "" }
      ([msg], acc.k)

/-- Is a yielded item a response (as opposed to a terminal error)? -/
def isRespOut : StreamOut → Bool
  | .resp _ => true
  | .fail _ => false

/-- The concrete input of the fallback-extraction example (§8 of the
design). -/
def c1Text : String := "Sure, one sec. \x7b\"name\":\"create_event\",\"arguments\":\x7b\"summary\":\"Standup\",\"dtstart\":\"2024-05-06T09:00:00Z\"\x7d\x7d done."

/-- A chunk whose only content is a non-empty finish reason. -/
def finishOnlyChunk : OpenAIChunk := ⟨[⟨some ⟨none, []⟩, "stop"⟩], none⟩

/-- A content-only chunk line carrying text `t`. -/
def contentLine (t : String) : StreamLine :=
  .line "data: x" (some ⟨[⟨some ⟨some t, []⟩, ""⟩], none⟩)

/-- The `data: [DONE]` line. -/
def doneLine : StreamLine := .line "data: [DONE]" none

/-- Three content-only chunks followed directly by `[DONE]` (the design's
no-finish-reason-ever scenario). -/
def threeChunkStream : List StreamLine :=
  [contentLine "a", contentLine "b", contentLine "c", doneLine]

/-- A turn used as the C8 witness: a text part, a responded call with an
id, and a responded call without an id. -/
def c8Content : GenContent :=
  ⟨"user", [{ text := "note" },
            { functionResponse := some ⟨"fr1", "f", [("ok", Json.bool true)]⟩ },
            { functionResponse := some ⟨"", "g", []⟩ }]⟩

/-! ### Claim theorems -/

/-- C1: the claim says a successful decode of the JSON object starting at a
`\x7b` yields a recovered tool call excluded from the output text, and in
particular the sample input yields one `create_event` call and remainder
`Sure, one sec.  done.`. The source's check is inverted (`err == nil`
treats the brace as literal text), so on the sample input the extractor
recovers NO call and returns the input text unchanged, for every id
generator. -/
theorem parseToolCallsFromText_c1_behavior (fresh : Nat → String) :
    parseToolCallsFromText fresh c1Text = ([], c1Text) := rfl

/-- C2 counterexample: a wire delta entry carrying `index = 1` is merged by
the source at position 0 of the accumulator (its position within the
delta's list), not at index 1; the spec-side merge would have padded the
accumulator and stored it at index 1. -/
theorem mergeDeltaToolCalls_drops_wire_index :
    decodeWireDeltaToolCall ⟨1, "a", "function", "f", "x"⟩ = ⟨"a", "function", ⟨"f", "x"⟩⟩
    ∧ mergeDeltaToolCalls [] [decodeWireDeltaToolCall ⟨1, "a", "function", "f", "x"⟩]
        = [⟨"a", "function", ⟨"f", "x"⟩⟩]
    ∧ (mergeDeltaToolCalls [] [decodeWireDeltaToolCall ⟨1, "a", "function", "f", "x"⟩]).get? 1
        = none
    ∧ specMergeDeltaToolCalls [] [⟨1, "a", "function", "f", "x"⟩]
        = [emptyToolCall, ⟨"a", "function", ⟨"f", "x"⟩⟩] := by decide

/-- Folding fragment-only deltas into a one-entry accumulator appends every
fragment to the stored call's arguments and changes nothing else. -/
theorem mergeDeltaToolCalls_fragment_fold (frags : List String) :
    ∀ c : OpenAIToolCall,
      frags.foldl (fun acc f => mergeDeltaToolCalls acc [⟨"", "", ⟨"", f⟩⟩]) [c]
        = [⟨c.id, c.type, ⟨c.function.name, c.function.arguments ++ concatAll frags⟩⟩] := by
  induction frags with
  | nil => intro c; simp [concatAll, String.append_empty]
  | cons f tl ih =>
    intro c
    simp only [List.foldl_cons]
    have e1 : mergeDeltaToolCalls [c] [⟨"", "", ⟨"", f⟩⟩]
        = [⟨c.id, c.type, ⟨c.function.name, c.function.arguments ++ f⟩⟩] := rfl
    rw [e1, ih]
    simp [concatAll, String.append_assoc]

/-- C2 amended: the accumulator merge is positional — each delta entry is
merged at its position within that delta's `toolCalls` list (the wire
`index` member is not even decoded) — and a valid JSON arguments string
split into K (1..50) fragments, delivered as the sole entry of K successive
deltas, reconstructs byte-for-byte at accumulator position 0. -/
theorem mergeDeltaToolCalls_positional_reconstruction (frags : List String)
    (h1 : 1 ≤ frags.length) (h2 : frags.length ≤ 50) :
    frags.foldl (fun acc f => mergeDeltaToolCalls acc [⟨"", "", ⟨"", f⟩⟩]) []
      = [⟨"", "", ⟨"", concatAll frags⟩⟩] := by
  match frags, h1 with
  | f :: tl, _ =>
    simp only [List.foldl_cons]
    have e1 : mergeDeltaToolCalls [] [⟨"", "", ⟨"", f⟩⟩] = [⟨"", "", ⟨"", f⟩⟩] := rfl
    rw [e1, mergeDeltaToolCalls_fragment_fold tl]
    simp [concatAll, String.empty_append]

/-- Witness for the amended C2 statement: a two-fragment split of
`\x7b"a":1\x7d` reconstructs exactly. -/
theorem mergeDeltaToolCalls_positional_reconstruction_witness :
    1 ≤ (["\x7b\"a\":", "1\x7d"] : List String).length
    ∧ (["\x7b\"a\":", "1\x7d"] : List String).length ≤ 50
    ∧ ["\x7b\"a\":", "1\x7d"].foldl
        (fun acc f => mergeDeltaToolCalls acc [⟨"", "", ⟨"", f⟩⟩]) []
        = [⟨"", "", ⟨"", "\x7b\"a\":1\x7d"⟩⟩] :=
  ⟨by decide, by decide, by
    rw [mergeDeltaToolCalls_positional_reconstruction _ (by decide) (by decide)]
    decide⟩

/-- C3: final assembly happens exactly once when a finish reason arrives and
the loop reads no further lines; BUT the argument-string handling is
inverted relative to the claim: an accumulated call whose arguments are
VALID JSON (`\x7b\x7d`) is dropped from the final response, while malformed
arguments (`oops`) are NOT fatal — the call is kept with a nil args map and
no error is surfaced. -/
theorem buildFinalResponse_arg_handling :
    (buildFinalResponse "" [⟨"call_1", "function", ⟨"f", "\x7b\x7d"⟩⟩] none "stop").parts = []
    ∧ (buildFinalResponse "" [⟨"call_1", "function", ⟨"f", "oops"⟩⟩] none "stop").parts
        = [{ functionCall := some ⟨"call_1", "f", none⟩ }]
    ∧ (∀ st rest scanErr,
        runStreamLoop (.line "data: x" (some finishOnlyChunk) :: rest) scanErr st
          = (processChunk st finishOnlyChunk).1)
    ∧ (∀ st, (processChunk st finishOnlyChunk).1
        = [StreamOut.resp (buildFinalResponse st.textbuffer st.toolCalls st.usage "stop")]) :=
  ⟨rfl, rfl, fun _ _ _ => rfl, fun _ => rfl⟩

/-- C6 counterexample: a 201 response (2xx but not 200) is surfaced by the
source as an error, where the claim's non-2xx partition would return the
open body. -/
theorem sendRequestCheck_rejects_201 :
    sendRequestCheck ⟨201, "created"⟩ = .apiError 201 "created"
    ∧ specTransportCheck ⟨201, "created"⟩ = .ok ⟨201, "created"⟩ := by decide

/-- C6 amended: the transport's partition is on status 200 exactly: any
other status is surfaced as an error carrying status and body (no retry),
and a 200 response is handed back to the caller still open. -/
theorem sendRequestCheck_status_partition (resp : HTTPResponse) :
    (resp.statusCode ≠ 200 → sendRequestCheck resp = .apiError resp.statusCode resp.body)
    ∧ (resp.statusCode = 200 → sendRequestCheck resp = .ok resp) := by
  constructor <;> intro h <;> simp [sendRequestCheck, h]

/-- Witness for the amended C6 statement at statuses 404 and 200. -/
theorem sendRequestCheck_status_partition_witness :
    sendRequestCheck ⟨404, "nf"⟩ = .apiError 404 "nf"
    ∧ sendRequestCheck ⟨200, "ok"⟩ = .ok ⟨200, "ok"⟩ :=
  ⟨(sendRequestCheck_status_partition ⟨404, "nf"⟩).1 (by decide),
   (sendRequestCheck_status_partition ⟨200, "ok"⟩).2 rfl⟩

/-- C7: the finish-reason mapping is total: the four listed strings map as
specified and every other string maps to Other. -/
theorem mapFinishReason_mapping :
    mapFinishReason "stop" = .stop
    ∧ mapFinishReason "length" = .maxTokens
    ∧ mapFinishReason "tool_calls" = .stop
    ∧ mapFinishReason "content_filter" = .safety
    ∧ ∀ s, s ≠ "stop" → s ≠ "length" → s ≠ "tool_calls" → s ≠ "content_filter" →
        mapFinishReason s = .other := by
  refine ⟨by decide, by decide, by decide, by decide, ?_⟩
  intro s h1 h2 h3 h4
  simp [mapFinishReason, h1, h2, h3, h4]

/-- Witness for C7 at the unlisted string of the design's example. -/
theorem mapFinishReason_mapping_witness :
    mapFinishReason "unexpected_code" = .other :=
  mapFinishReason_mapping.2.2.2.2 "unexpected_code" (by decide) (by decide)
    (by decide) (by decide)

/-- Concatenation distributes over list append. -/
theorem concatAll_append (a b : List String) :
    concatAll (a ++ b) = concatAll a ++ concatAll b := by
  induction a with
  | nil => simp [concatAll, String.empty_append]
  | cons x tl ih => simp [concatAll, ih, String.append_assoc]

/-- The tool-call parts of a final response carry no text. -/
theorem callParts_text_empty (tcs : List OpenAIToolCall) :
    concatAll ((tcs.filterMap (fun tc =>
      match goUnmarshalMap tc.function.arguments with
      | some _ => none
      | none => some ({ functionCall := some ⟨tc.id, tc.function.name, none⟩ } : GenPart))).map
        (fun p => p.text)) = "" := by
  induction tcs with
  | nil => rfl
  | cons tc tl ih =>
    cases h : goUnmarshalMap tc.function.arguments <;>
      simp [List.filterMap_cons, h, concatAll, ih, String.empty_append]

/-- The text of a final response is exactly the accumulated text it was
built from. -/
theorem textOf_buildFinalResponse (t : String) (tcs : List OpenAIToolCall)
    (u : Option OpenAIUsage) (fr : String) :
    textOf (buildFinalResponse t tcs u fr) = t := by
  unfold textOf buildFinalResponse
  by_cases ht : t = "" <;>
    simp [ht, List.map_append, concatAll_append, callParts_text_empty, concatAll,
      String.append_empty, String.empty_append]

/-- A final response is not partial. -/
theorem buildFinalResponse_isPartial (t : String) (tcs : List OpenAIToolCall)
    (u : Option OpenAIUsage) (fr : String) :
    (buildFinalResponse t tcs u fr).isPartial = false := rfl

/-- A final response carries the mapped finish reason. -/
theorem buildFinalResponse_finishReason (t : String) (tcs : List OpenAIToolCall)
    (u : Option OpenAIUsage) (fr : String) :
    (buildFinalResponse t tcs u fr).finishReason = some (mapFinishReason fr) := rfl

/-- The content paragraph: the new buffer is the old buffer plus the emitted
partial texts, no final is emitted, and no error is emitted. -/
theorem contentStep_spec (st : StreamState) (content : Option String) :
    (contentStep st content).2.textbuffer
        = st.textbuffer ++ concatAll (partialTextsOf (contentStep st content).1)
    ∧ finalsOf (contentStep st content).1 = []
    ∧ (contentStep st content).1.all isRespOut = true := by
  cases content with
  | none => simp [contentStep, partialTextsOf, finalsOf, concatAll, String.append_empty]
  | some t =>
    by_cases ht : t = "" <;>
      simp [contentStep, ht, partialTextsOf, finalsOf, concatAll, textOf,
        String.append_empty, isRespOut]

/-- Merging delta tool calls leaves the text buffer unchanged. -/
theorem mergeToolCallsStep_textbuffer (st : StreamState) (d : List OpenAIToolCall) :
    (mergeToolCallsStep st d).textbuffer = st.textbuffer := by
  unfold mergeToolCallsStep; split <;> rfl

/-- Storing usage leaves the text buffer unchanged. -/
theorem storeUsageStep_textbuffer (st : StreamState) (u : Option OpenAIUsage) :
    (storeUsageStep st u).textbuffer = st.textbuffer := by
  cases u <;> rfl

/-- Extracting finals distributes over append. -/
theorem finalsOf_append (a b : List StreamOut) :
    finalsOf (a ++ b) = finalsOf a ++ finalsOf b := by
  simp [finalsOf, List.filterMap_append]

/-- Extracting partial texts distributes over append. -/
theorem partialTextsOf_append (a b : List StreamOut) :
    partialTextsOf (a ++ b) = partialTextsOf a ++ partialTextsOf b := by
  simp [partialTextsOf, List.filterMap_append]

/-- A yielded final response contributes no partial text. -/
theorem partialTextsOf_final (t : String) (tcs : List OpenAIToolCall)
    (u : Option OpenAIUsage) (fr : String) :
    partialTextsOf [StreamOut.resp (buildFinalResponse t tcs u fr)] = [] := by
  simp [partialTextsOf, buildFinalResponse_isPartial]

/-- A yielded final response is the one final of its singleton list. -/
theorem finalsOf_final (t : String) (tcs : List OpenAIToolCall)
    (u : Option OpenAIUsage) (fr : String) :
    finalsOf [StreamOut.resp (buildFinalResponse t tcs u fr)]
      = [buildFinalResponse t tcs u fr] := by
  simp [finalsOf, buildFinalResponse_isPartial]

/-- Chunk processing: buffer bookkeeping, the finished flag, and the shape
of the emitted items. -/
theorem processChunk_spec (st : StreamState) (c : OpenAIChunk) :
    (processChunk st c).2.1.textbuffer
        = st.textbuffer ++ concatAll (partialTextsOf (processChunk st c).1)
    ∧ (processChunk st c).2.2 = chunkFinishes c
    ∧ (chunkFinishes c = false → finalsOf (processChunk st c).1 = [])
    ∧ (∀ f ∈ finalsOf (processChunk st c).1, textOf f = (processChunk st c).2.1.textbuffer)
    ∧ (processChunk st c).1.all isRespOut = true := by
  obtain ⟨choices, usage⟩ := c
  cases choices with
  | nil =>
    simp [processChunk, chunkFinishes, partialTextsOf, finalsOf, concatAll,
      String.append_empty]
  | cons choice restCh =>
    obtain ⟨delta, fin⟩ := choice
    cases delta with
    | none =>
      simp [processChunk, chunkFinishes, partialTextsOf, finalsOf, concatAll,
        String.append_empty]
    | some d =>
      obtain ⟨content, dtcs⟩ := d
      have hcs := contentStep_spec st content
      by_cases hfin : fin = ""
      · simp [processChunk, chunkFinishes, hfin, mergeToolCallsStep_textbuffer,
          storeUsageStep_textbuffer, hcs.1, hcs.2.1, hcs.2.2]
      · simp only [processChunk, chunkFinishes]
        rw [if_pos (show fin ≠ "" from hfin)]
        refine ⟨?_, ?_, ?_, ?_, ?_⟩
        · simp [partialTextsOf_append, partialTextsOf_final,
            storeUsageStep_textbuffer, mergeToolCallsStep_textbuffer, hcs.1]
        · simp [hfin]
        · intro h; simp [hfin] at h
        · intro f hf
          rw [finalsOf_append, hcs.2.1, finalsOf_final] at hf
          simp only [List.nil_append, List.mem_singleton] at hf
          subst hf
          rw [textOf_buildFinalResponse]
        · simp [List.all_append, hcs.2.2, isRespOut]

/-- The epilogue emits no partial text, and any final it emits carries the
accumulated text. -/
theorem streamEpilogue_spec (scanErr : Option String) (st : StreamState) :
    partialTextsOf (streamEpilogue scanErr st) = []
    ∧ (∀ f ∈ finalsOf (streamEpilogue scanErr st), textOf f = st.textbuffer) := by
  cases scanErr with
  | some e => simp [streamEpilogue, partialTextsOf, finalsOf]
  | none =>
    by_cases h : st.textbuffer ≠ "" ∨ st.toolCalls ≠ []
    · simp only [streamEpilogue, if_pos h]
      refine ⟨partialTextsOf_final _ _ _ _, ?_⟩
      intro f hf
      rw [finalsOf_final] at hf
      simp only [List.mem_singleton] at hf
      subst hf
      exact textOf_buildFinalResponse _ _ _ _
    · simp [streamEpilogue, h, partialTextsOf, finalsOf]

/-- Every final of a stream run carries the initial buffer followed by all
the partial increments emitted during the run. -/
theorem runStreamLoop_finals_text (events : List StreamLine) :
    ∀ (scanErr : Option String) (st : StreamState),
      ∀ f ∈ finalsOf (runStreamLoop events scanErr st),
        textOf f = st.textbuffer ++ concatAll (partialTextsOf (runStreamLoop events scanErr st)) := by
  induction events with
  | nil =>
    intro scanErr st f hf
    have h := streamEpilogue_spec scanErr st
    simp only [runStreamLoop] at hf ⊢
    rw [h.1]
    simpa [concatAll, String.append_empty] using h.2 f hf
  | cons l rest ih =>
    intro scanErr st f hf
    obtain ⟨raw, dec⟩ := l
    cases hpre : strStartsWith "data: " raw with
    | false =>
      have hrun : runStreamLoop (StreamLine.line raw dec :: rest) scanErr st
          = runStreamLoop rest scanErr st := by
        simp [runStreamLoop, hpre]
      rw [hrun] at hf ⊢
      exact ih scanErr st f hf
    | true =>
      by_cases hdone : strTrimLeading "data: " raw = "[DONE]"
      · have hrun : runStreamLoop (StreamLine.line raw dec :: rest) scanErr st
            = streamEpilogue none st := by
          simp [runStreamLoop, hpre, hdone]
        rw [hrun] at hf ⊢
        have h := streamEpilogue_spec none st
        rw [h.1]
        simpa [concatAll, String.append_empty] using h.2 f hf
      · cases dec with
        | none =>
          have hrun : runStreamLoop (StreamLine.line raw none :: rest) scanErr st
              = runStreamLoop rest scanErr st := by
            simp [runStreamLoop, hpre, hdone]
          rw [hrun] at hf ⊢
          exact ih scanErr st f hf
        | some chunk =>
          have hspec := processChunk_spec st chunk
          cases hfin : (processChunk st chunk).2.2 with
          | true =>
            have hrun : runStreamLoop (StreamLine.line raw (some chunk) :: rest) scanErr st
                = (processChunk st chunk).1 := by
              simp [runStreamLoop, hpre, hdone, hfin]
            rw [hrun] at hf ⊢
            rw [← hspec.1]
            exact hspec.2.2.2.1 f hf
          | false =>
            have hcf : chunkFinishes chunk = false := by
              rw [← hspec.2.1]; exact hfin
            have hrun : runStreamLoop (StreamLine.line raw (some chunk) :: rest) scanErr st
                = (processChunk st chunk).1
                  ++ runStreamLoop rest scanErr (processChunk st chunk).2.1 := by
              simp [runStreamLoop, hpre, hdone, hfin]
            rw [hrun] at hf ⊢
            rw [finalsOf_append, hspec.2.2.1 hcf, List.nil_append] at hf
            rw [partialTextsOf_append, concatAll_append, ih scanErr _ f hf,
              hspec.1, String.append_assoc]

/-- C4: a non-empty `delta.content` string is appended to the running buffer
and immediately yielded as one `partial` response containing only that
increment, and the concatenation of all partial text increments equals the
text of any final response of the run. -/
theorem stream_text_reconstruction :
    (∀ (st : StreamState) (t : String), t ≠ "" →
        processChunk st ⟨[⟨some ⟨some t, []⟩, ""⟩], none⟩
          = ([StreamOut.resp { role := "model", parts := [{ text := t }],
                               isPartial := true, finishReason := none,
                               usage := none }],
             { st with textbuffer := st.textbuffer ++ t }, false))
    ∧ ∀ (events : List StreamLine) (scanErr : Option String),
        ∀ f ∈ finalsOf (runStream events scanErr),
          textOf f = concatAll (partialTextsOf (runStream events scanErr)) := by
  constructor
  · intro st t ht
    simp [processChunk, contentStep, mergeToolCallsStep, storeUsageStep, ht]
  · intro events scanErr f hf
    have h := runStreamLoop_finals_text events scanErr initialStreamState f hf
    simpa [initialStreamState, String.empty_append] using h

/-- Witness for C4: a concrete content chunk appends and yields its
increment, and on the three-chunk stream the final text equals the joined
partials. -/
theorem stream_text_reconstruction_witness :
    processChunk initialStreamState ⟨[⟨some ⟨some "hi", []⟩, ""⟩], none⟩
      = ([StreamOut.resp { role := "model", parts := [{ text := "hi" }],
                           isPartial := true, finishReason := none,
                           usage := none }],
         { initialStreamState with textbuffer := initialStreamState.textbuffer ++ "hi" },
         false)
    ∧ textOf (buildFinalResponse "abc" [] none "stop")
        = concatAll (partialTextsOf (runStream threeChunkStream none)) :=
  ⟨stream_text_reconstruction.1 initialStreamState "hi" (by decide),
   stream_text_reconstruction.2 threeChunkStream none
    (buildFinalResponse "abc" [] none "stop") (List.Mem.head _)⟩

/-- Runs that never meet a finish reason end in exactly the epilogue's
finals computed over the accumulated state. -/
theorem runStreamLoop_noFinish_finals (events : List StreamLine) :
    ∀ st : StreamState, (∀ l ∈ events, lineFinishes l = false) →
      finalsOf (runStreamLoop events none st)
        = finalsOf (streamEpilogue none (streamStateAfter events st)) := by
  induction events with
  | nil => intro st _; simp [runStreamLoop, streamStateAfter]
  | cons l rest ih =>
    intro st hAll
    obtain ⟨raw, dec⟩ := l
    have hl := hAll _ (List.mem_cons_self _ _)
    have hrest : ∀ x ∈ rest, lineFinishes x = false :=
      fun x hx => hAll x (List.mem_cons_of_mem _ hx)
    cases hpre : strStartsWith "data: " raw with
    | false => simp [runStreamLoop, streamStateAfter, hpre, ih st hrest]
    | true =>
      by_cases hdone : strTrimLeading "data: " raw = "[DONE]"
      · simp [runStreamLoop, streamStateAfter, hpre, hdone]
      · cases dec with
        | none => simp [runStreamLoop, streamStateAfter, hpre, hdone, ih st hrest]
        | some chunk =>
          have hcf : chunkFinishes chunk = false := by
            simp [lineFinishes, hpre, hdone] at hl
            exact hl
          have hspec := processChunk_spec st chunk
          have hfin : (processChunk st chunk).2.2 = false := by
            rw [hspec.2.1]; exact hcf
          have hrun : runStreamLoop (StreamLine.line raw (some chunk) :: rest) none st
              = (processChunk st chunk).1
                ++ runStreamLoop rest none (processChunk st chunk).2.1 := by
            simp [runStreamLoop, hpre, hdone, hfin]
          have hst : streamStateAfter (StreamLine.line raw (some chunk) :: rest) st
              = streamStateAfter rest (processChunk st chunk).2.1 := by
            simp [streamStateAfter, hpre, hdone, hfin]
          rw [hrun, hst, finalsOf_append, hspec.2.2.1 hcf, List.nil_append]
          exact ih _ hrest

/-- C5: if the stream ends (EOF or `[DONE]`) without any chunk carrying a
finish reason and the accumulated text or tool-call buffer is non-empty,
exactly one final response is synthesized, with finish reason Stop and the
accumulated (concatenated) text. -/
theorem stream_fallback_flush (events : List StreamLine)
    (h1 : ∀ l ∈ events, lineFinishes l = false)
    (h2 : (streamStateAfter events initialStreamState).textbuffer ≠ ""
        ∨ (streamStateAfter events initialStreamState).toolCalls ≠ []) :
    finalsOf (runStream events none)
      = [buildFinalResponse (streamStateAfter events initialStreamState).textbuffer
          (streamStateAfter events initialStreamState).toolCalls
          (streamStateAfter events initialStreamState).usage "stop"]
    ∧ ∀ f ∈ finalsOf (runStream events none),
        f.finishReason = some FinishReason.stop
        ∧ textOf f = (streamStateAfter events initialStreamState).textbuffer := by
  have he : finalsOf (runStream events none)
      = [buildFinalResponse (streamStateAfter events initialStreamState).textbuffer
          (streamStateAfter events initialStreamState).toolCalls
          (streamStateAfter events initialStreamState).usage "stop"] := by
    rw [runStream, runStreamLoop_noFinish_finals events initialStreamState h1]
    simp only [streamEpilogue, if_pos h2]
    exact finalsOf_final _ _ _ _
  refine ⟨he, ?_⟩
  intro f hf
  rw [he] at hf
  simp only [List.mem_singleton] at hf
  subst hf
  exact ⟨buildFinalResponse_finishReason _ _ _ _,
    textOf_buildFinalResponse _ _ _ _⟩

/-- Witness for C5: the three-content-chunk stream followed by `[DONE]`
yields exactly one final response, with Stop and the concatenated text. -/
theorem stream_fallback_flush_witness :
    finalsOf (runStream threeChunkStream none)
      = [buildFinalResponse (streamStateAfter threeChunkStream initialStreamState).textbuffer
          (streamStateAfter threeChunkStream initialStreamState).toolCalls
          (streamStateAfter threeChunkStream initialStreamState).usage "stop"]
    ∧ ∀ f ∈ finalsOf (runStream threeChunkStream none),
        f.finishReason = some FinishReason.stop
        ∧ textOf f = (streamStateAfter threeChunkStream initialStreamState).textbuffer :=
  stream_fallback_flush threeChunkStream (by decide) (by decide)

/-- Every item of a run without scanner error is a response (never an
error). -/
theorem runStreamLoop_none_all_resp (events : List StreamLine) :
    ∀ st : StreamState, (runStreamLoop events none st).all isRespOut = true := by
  induction events with
  | nil =>
    intro st
    simp only [runStreamLoop, streamEpilogue]
    split
    · simp [isRespOut]
    · simp [isRespOut]
  | cons l rest ih =>
    intro st
    obtain ⟨raw, dec⟩ := l
    cases hpre : strStartsWith "data: " raw with
    | false => simp [runStreamLoop, hpre, ih st]
    | true =>
      by_cases hdone : strTrimLeading "data: " raw = "[DONE]"
      · have hrun : runStreamLoop (StreamLine.line raw dec :: rest) none st
            = streamEpilogue none st := by
          simp [runStreamLoop, hpre, hdone]
        rw [hrun]
        simp only [streamEpilogue]
        split
        · simp [isRespOut]
        · simp [isRespOut]
      · cases dec with
        | none => simp [runStreamLoop, hpre, hdone, ih st]
        | some chunk =>
          have hspec := processChunk_spec st chunk
          cases hfin : (processChunk st chunk).2.2 with
          | true =>
            have hrun : runStreamLoop (StreamLine.line raw (some chunk) :: rest) none st
                = (processChunk st chunk).1 := by
              simp [runStreamLoop, hpre, hdone, hfin]
            rw [hrun]
            exact hspec.2.2.2.2
          | false =>
            have hrun : runStreamLoop (StreamLine.line raw (some chunk) :: rest) none st
                = (processChunk st chunk).1
                  ++ runStreamLoop rest none (processChunk st chunk).2.1 := by
              simp [runStreamLoop, hpre, hdone, hfin]
            rw [hrun]
            simp [List.all_append, hspec.2.2.2.2, ih]

/-- C10: lines without the `data: ` prefix, `data: ` payloads that fail to
unmarshal, chunks with an empty choices array, and chunks with a nil delta
are all silently skipped (state unchanged, nothing yielded, no
termination); a run without a scanner error never yields an error, and a
scanner error at end of input yields exactly the one terminal error. -/
theorem generateStream_skip_and_error_rules :
    (∀ (st : StreamState) (rest : List StreamLine) (scanErr : Option String)
        (raw : String) (dec : Option OpenAIChunk),
      strStartsWith "data: " raw = false →
        runStreamLoop (.line raw dec :: rest) scanErr st = runStreamLoop rest scanErr st)
    ∧ (∀ (st : StreamState) (rest : List StreamLine) (scanErr : Option String)
        (raw : String),
      strStartsWith "data: " raw = true →
      strTrimLeading "data: " raw ≠ "[DONE]" →
        runStreamLoop (.line raw none :: rest) scanErr st = runStreamLoop rest scanErr st)
    ∧ (∀ (st : StreamState) (u : Option OpenAIUsage),
        processChunk st ⟨[], u⟩ = ([], st, false))
    ∧ (∀ (st : StreamState) (u : Option OpenAIUsage) (fr : String),
        processChunk st ⟨[⟨none, fr⟩], u⟩ = ([], st, false))
    ∧ (∀ (events : List StreamLine) (st : StreamState),
        (runStreamLoop events none st).all isRespOut = true)
    ∧ (∀ (e : String) (st : StreamState),
        runStreamLoop [] (some e) st = [StreamOut.fail ("stream error: " ++ e)]) := by
  refine ⟨?_, ?_, fun _ _ => rfl, fun _ _ _ => rfl,
    fun events st => runStreamLoop_none_all_resp events st, fun _ _ => rfl⟩
  · intro st rest scanErr raw dec h
    simp [runStreamLoop, h]
  · intro st rest scanErr raw h hd
    simp [runStreamLoop, h, hd]

/-- Witness for C10: a non-`data: ` line and a malformed-JSON `data: ` line
are skipped at a concrete state. -/
theorem generateStream_skip_and_error_rules_witness :
    runStreamLoop [.line "event: ping" none] none initialStreamState
      = runStreamLoop [] none initialStreamState
    ∧ runStreamLoop [.line "data: notjson" none] none initialStreamState
      = runStreamLoop [] none initialStreamState :=
  ⟨generateStream_skip_and_error_rules.1 initialStreamState [] none "event: ping" none
      (by decide),
   generateStream_skip_and_error_rules.2.1 initialStreamState [] none "data: notjson"
      (by decide) (by decide)⟩

/-- A list is a prefix of itself followed by anything. -/
theorem listIsPrefixOf_append (l m : List Char) : l.isPrefixOf (l ++ m) = true := by
  induction l with
  | nil => simp [List.isPrefixOf]
  | cons c tl ih => simp [List.isPrefixOf, ih]

/-- A string starts with itself followed by anything. -/
theorem strStartsWith_append (p s : String) : strStartsWith p (p ++ s) = true := by
  cases p with
  | mk pl =>
    cases s with
    | mk sl => exact listIsPrefixOf_append pl sl

/-- The first loop of `convertContent`, elementwise: one tool-role message
per `functionResponse` part, with the marshalled response as content and
the part's id (or a fabricated `call_`-prefixed one) as the tool-call
id. -/
theorem frToolMessages_spec (fresh : Nat → String) (parts : List GenPart) :
    ∀ k : Nat,
      (frToolMessages fresh k parts).1.length
          = (parts.filterMap (fun p => p.functionResponse)).length
      ∧ ∀ pr ∈ (frToolMessages fresh k parts).1.zip
          (parts.filterMap (fun p => p.functionResponse)),
          pr.1.role = "tool" ∧ pr.1.toolCalls = []
          ∧ pr.1.content = MsgContent.str (goMarshalFields pr.2.response)
          ∧ (pr.2.id ≠ "" → pr.1.toolCallID = pr.2.id)
          ∧ (pr.2.id = "" → strStartsWith "call_" pr.1.toolCallID = true) := by
  induction parts with
  | nil => intro k; simp [frToolMessages]
  | cons part rest ih =>
    intro k
    cases hFR : part.functionResponse with
    | none =>
      simp only [frToolMessages, hFR, List.filterMap_cons]
      exact ih k
    | some fr =>
      by_cases hid : fr.id = ""
      · have hmain : frToolMessages fresh k (part :: rest)
            = ({ role := "tool", content := .str (goMarshalFields fr.response),
                 toolCalls := [], toolCallID := "call_" ++ ((fresh k).take 8) }
                :: (frToolMessages fresh (k + 1) rest).1,
               (frToolMessages fresh (k + 1) rest).2) := by
          simp [frToolMessages, hFR, hid]
        rw [hmain]
        constructor
        · simp [List.filterMap_cons, hFR, (ih (k + 1)).1]
        · intro pr hpr
          simp only [List.filterMap_cons, hFR, List.zip_cons_cons] at hpr
          rcases List.mem_cons.mp hpr with h | h
          · subst h
            exact ⟨rfl, rfl, rfl, fun hne => absurd hid hne,
              fun _ => strStartsWith_append _ _⟩
          · exact (ih (k + 1)).2 pr h
      · have hmain : frToolMessages fresh k (part :: rest)
            = ({ role := "tool", content := .str (goMarshalFields fr.response),
                 toolCalls := [], toolCallID := fr.id }
                :: (frToolMessages fresh k rest).1,
               (frToolMessages fresh k rest).2) := by
          simp [frToolMessages, hFR, hid]
        rw [hmain]
        constructor
        · simp [List.filterMap_cons, hFR, (ih k).1]
        · intro pr hpr
          simp only [List.filterMap_cons, hFR, List.zip_cons_cons] at hpr
          rcases List.mem_cons.mp hpr with h | h
          · subst h
            exact ⟨rfl, rfl, rfl, fun _ => rfl, fun he => absurd he hid⟩
          · exact (ih k).2 pr h

/-- A part list with a `functionResponse` part yields a non-empty first
loop. -/
theorem frToolMessages_ne_nil (fresh : Nat → String) (parts : List GenPart) :
    ∀ k : Nat, parts.any (fun p => p.functionResponse.isSome) = true →
      (frToolMessages fresh k parts).1 ≠ [] := by
  induction parts with
  | nil => intro k h; simp at h
  | cons part rest ih =>
    intro k h
    cases hFR : part.functionResponse with
    | none =>
      have hrest : rest.any (fun p => p.functionResponse.isSome) = true := by
        simp only [List.any_cons, hFR, Option.isSome_none, Bool.false_or] at h
        exact h
      simp only [frToolMessages, hFR]
      exact ih k hrest
    | some fr =>
      by_cases hid : fr.id = "" <;> simp [frToolMessages, hFR, hid]

/-- With a `functionResponse` part present, `convertContent` returns
exactly the first loop's tool messages. -/
theorem convertContent_eq_frToolMessages (fresh : Nat → String) (k : Nat)
    (content : GenContent)
    (h : content.parts.any (fun p => p.functionResponse.isSome) = true) :
    (convertContent fresh k content).1 = (frToolMessages fresh k content.parts).1 := by
  obtain ⟨crole, cparts⟩ := content
  have hne : cparts ≠ [] := by
    intro heq
    rw [heq] at h
    simp at h
  have hempty : cparts.isEmpty = false := by
    cases cparts with
    | nil => exact absurd rfl hne
    | cons a l => rfl
  have hfr := frToolMessages_ne_nil fresh cparts k h
  have hfrEmpty : (frToolMessages fresh k cparts).1.isEmpty = false := by
    cases hx : (frToolMessages fresh k cparts).1 with
    | nil => exact absurd hx hfr
    | cons a l => rfl
  simp only [convertContent, hempty, hfrEmpty, Bool.false_eq_true, if_false,
    Bool.not_false, if_true]

/-- C8: a turn containing any `functionResponse` part emits exactly one
tool-role wire message per such part — content the JSON-encoded response
map, tool-call id the part's id (a fabricated `call_`-prefixed one when
absent) — and emits nothing else for that turn. -/
theorem convertContent_functionResponse_exclusive (fresh : Nat → String) (k : Nat)
    (content : GenContent)
    (h : content.parts.any (fun p => p.functionResponse.isSome) = true) :
    ((convertContent fresh k content).1).length
        = (content.parts.filterMap (fun p => p.functionResponse)).length
    ∧ ∀ pr ∈ ((convertContent fresh k content).1).zip
        (content.parts.filterMap (fun p => p.functionResponse)),
        pr.1.role = "tool" ∧ pr.1.toolCalls = []
        ∧ pr.1.content = MsgContent.str (goMarshalFields pr.2.response)
        ∧ (pr.2.id ≠ "" → pr.1.toolCallID = pr.2.id)
        ∧ (pr.2.id = "" → strStartsWith "call_" pr.1.toolCallID = true) := by
  rw [convertContent_eq_frToolMessages fresh k content h]
  exact frToolMessages_spec fresh content.parts k

/-- Witness for C8 on a concrete turn. -/
theorem convertContent_functionResponse_exclusive_witness :
    ((convertContent (fun _ => "0123456789abcdef") 0 c8Content).1).length
        = (c8Content.parts.filterMap (fun p => p.functionResponse)).length
    ∧ ∀ pr ∈ ((convertContent (fun _ => "0123456789abcdef") 0 c8Content).1).zip
        (c8Content.parts.filterMap (fun p => p.functionResponse)),
        pr.1.role = "tool" ∧ pr.1.toolCalls = []
        ∧ pr.1.content = MsgContent.str (goMarshalFields pr.2.response)
        ∧ (pr.2.id ≠ "" → pr.1.toolCallID = pr.2.id)
        ∧ (pr.2.id = "" → strStartsWith "call_" pr.1.toolCallID = true) :=
  convertContent_functionResponse_exclusive (fun _ => "0123456789abcdef") 0 c8Content
    (by decide)

/-- C9: a `functionCall` part with an empty (non-nil) args map converts to a
tool call whose arguments string is exactly the valid JSON object string,
and decoding that string back (the response path's unmarshal) yields the
empty map rather than an error. -/
theorem convertContent_empty_args_roundtrip (fresh : Nat → String) (k : Nat)
    (name id : String) (hid : id ≠ "") :
    (convertContent fresh k ⟨"model", [{ functionCall := some ⟨id, name, some []⟩ }]⟩).1
      = [{ role := "assistant", content := .omitted,
           toolCalls := [⟨id, "function", ⟨name, "\x7b\x7d"⟩⟩], toolCallID := "" }]
    ∧ goUnmarshalMap "\x7b\x7d" = some [] := by
  refine ⟨?_, rfl⟩
  have hm : goMarshalArgs (some ([] : List (String × Json))) = "\x7b\x7d" := rfl
  simp [convertContent, frToolMessages, convertPartStep, convertPartFileOrCall,
    convertPartFnCall, hm, hid]

/-- Witness for C9 at a concrete call. -/
theorem convertContent_empty_args_roundtrip_witness :
    (convertContent (fun _ => "x") 0
        ⟨"model", [{ functionCall := some ⟨"call_7", "noop", some []⟩ }]⟩).1
      = [{ role := "assistant", content := .omitted,
           toolCalls := [⟨"call_7", "function", ⟨"noop", "\x7b\x7d"⟩⟩], toolCallID := "" }]
    ∧ goUnmarshalMap "\x7b\x7d" = some [] :=
  convertContent_empty_args_roundtrip (fun _ => "x") 0 "noop" "call_7" (by decide)

end Otter
